import Mathlib

/-!
Shallow embedding of the secret-key-manager core
(src/src/secret_key_manager/core.py) and proofs of the spec claims.

Modelling conventions:
* A provider instance is a record of its observable behaviour.  A Python
  method that may raise is modelled as returning `Except Unit _`; a method
  that may be absent on the object (probed with `hasattr`) is modelled as
  an `Option` field (`none` = attribute missing).
* `get_key` on a provider returns `Except Unit (Option String)`:
  `Except.ok none` models Python `None`, `Except.ok (some s)` a string
  result, `Except.error ()` a raised exception.  Python truthiness of the
  result (`if key_value:`) is `truthyOf` below.
* Python dicts keyed by strings (`_keys`, `os.environ`, `_PROVIDER_REGISTRY`)
  are association lists in insertion order; updating an existing key keeps
  its position, as Python dicts do.
* Python `sorted(..., key=lambda p: p["priority"])` is a stable sort; it is
  embedded as insertion sort `sortByPriority`, which is stable.
-/

/-- Behaviour record of one live provider instance (Capability Contract). -/
structure Provider where
  name : String
  getKey : String → Except Unit (Option String)
  supportsWrite : Option Bool
  validateKey : Option (String → String → Bool)
  writeKey : String → String → Except Unit Bool

/-- One value of `_PROVIDER_REGISTRY` (a dict entry keyed by `cls.__name__`):
the descriptor metadata plus the factory.  `factory = none` models a
provider class whose constructor raises. -/
structure RegEntry where
  clsName : String
  enabled : Bool
  priority : Int
  name : String
  factory : Option Provider

/-- State of the `KeyManager` singleton together with the module-level
registry and the mirrored process environment. -/
structure ManagerState where
  registry : List RegEntry
  keys : List (String × String)
  providers : List Provider
  initialized : Bool
  environ : List (String × String)

/-- Dict lookup on an association list (first match wins). -/
def dictGet (d : List (String × String)) (k : String) : Option String :=
  match d with
  | [] => none
  | (k₁, v) :: rest => if k₁ = k then some v else dictGet rest k

/-- Dict update: replace the first binding of `k` in place, else append. -/
def dictInsert (d : List (String × String)) (k v : String) : List (String × String) :=
  match d with
  | [] => [(k, v)]
  | (k₁, v₁) :: rest => if k₁ = k then (k, v) :: rest else (k₁, v₁) :: dictInsert rest k v

/-- Registry dict update keyed by class name (in-place overwrite, as a
Python dict keeps the original position of an overwritten key). -/
def dictInsertReg (d : List RegEntry) (key : String) (e : RegEntry) : List RegEntry :=
  match d with
  | [] => [e]
  | x :: rest => if x.clsName = key then e :: rest else x :: dictInsertReg rest key e

/-- Registry dict lookup by class name. -/
def dictGetReg (d : List RegEntry) (key : String) : Option RegEntry :=
  match d with
  | [] => none
  | x :: rest => if x.clsName = key then some x else dictGetReg rest key

/-- Python `s.endswith(suf)`, character-based. -/
def pyEndsWith (s suf : String) : Bool :=
  List.isSuffixOf suf.data s.data

/-- Python `s[:-n]`: drop the last `n` characters. -/
def pyDropRight (s : String) (n : Nat) : String :=
  String.mk (s.data.take (s.data.length - n))

/-- Python `s.lower()` (ASCII, which covers the class names involved). -/
def pyLower (s : String) : String :=
  String.mk (s.data.map Char.toLower)

/-- Display-name derivation in the `KeyProvider` decorator:
`provider_name = name or cls.__name__` (Python treats the empty string as
falsy), then if it ends with `KeyProvider` the suffix (11 characters) is
stripped and the remainder lowercased. -/
def deriveProviderName (nameArg : Option String) (clsName : String) : String :=
  let providerName :=
    match nameArg with
    | some n => if n = "" then clsName else n
    | none => clsName
  if pyEndsWith providerName "KeyProvider" then pyLower (pyDropRight providerName 11)
  else providerName

/-- The registration performed by applying the `KeyProvider` decorator to a
class: store the metadata in the registry under `cls.__name__`. -/
def registerClass (reg : List RegEntry) (clsName : String) (enabled : Bool)
    (priority : Int) (nameArg : Option String) (factory : Option Provider) :
    List RegEntry :=
  dictInsertReg reg clsName
    { clsName := clsName, enabled := enabled, priority := priority,
      name := deriveProviderName nameArg clsName, factory := factory }

/-- Insert a registry entry into a list, before the first entry whose
priority is not strictly smaller. -/
def insertByPriority (e : RegEntry) : List RegEntry → List RegEntry
  | [] => [e]
  | x :: xs => if x.priority < e.priority then x :: insertByPriority e xs else e :: x :: xs

/-- Stable sort of registry entries ascending by priority, embedding
Python's stable `sorted(providers, key=lambda p: p["priority"])`. -/
def sortByPriority (l : List RegEntry) : List RegEntry :=
  l.foldr insertByPriority []

/-- Embeds `get_registered_providers`: registry values sorted by priority. -/
def get_registered_providers (reg : List RegEntry) : List RegEntry :=
  sortByPriority reg

/-- Embeds `initialize_providers`: instantiate every enabled registered
class in priority order; a constructor failure (`factory = none`) is
logged and skipped. -/
def initProviders (reg : List RegEntry) : List Provider :=
  (get_registered_providers reg).filterMap
    (fun e => if e.enabled then e.factory else none)

/-- Embeds `KeyManager._initialize`: build the live provider list from the
registry unless already initialized. -/
def ensureInit (st : ManagerState) : ManagerState :=
  if st.initialized then st
  else { st with providers := initProviders st.registry, initialized := true }

/-- Embeds `KeyManager.register_provider`: append the instance unless a
live provider with the same name already exists. -/
def register_provider (st : ManagerState) (p : Provider) : ManagerState :=
  let st₁ := ensureInit st
  if st₁.providers.any (fun q => q.name = p.name) then st₁
  else { st₁ with providers := st₁.providers ++ [p] }

/-- Provider-name filtering in `get_key`/`set_key`:
`active_providers = self._providers` then
`if providers: active_providers = [p for p in self._providers if p.name in providers]`.
A `none` or empty filter (falsy in Python) leaves the full list. -/
def activeProviders (ps : List Provider) : Option (List String) → List Provider
  | none => ps
  | some l => if l = [] then ps else ps.filter (fun p => l.contains p.name)

/-- Python truthiness of a provider `get_key` outcome: a raised exception,
`None`, and the empty string are all "no value". -/
def truthyOf (r : Except Unit (Option String)) : Option String :=
  match r with
  | Except.ok (some v) => if v = "" then none else some v
  | _ => none

/-- The provider loop of `KeyManager.get_key`: try each provider in order,
catching exceptions; return the first truthy value together with the trace
of provider names whose `get_key` was invoked. -/
def resolveLoop (k : String) : List Provider → Option String × List String
  | [] => (none, [])
  | p :: rest =>
    match truthyOf (p.getKey k) with
    | some v => (some v, [p.name])
    | none =>
      let r := resolveLoop k rest
      (r.1, p.name :: r.2)

/-- Cache miss path of `KeyManager.get_key`: run the provider loop over
the filtered providers; on a hit, write through into the cache and mirror
into the environment. -/
def resolveAndStore (st : ManagerState) (k : String) (filt : Option (List String)) :
    Option String × ManagerState × List String :=
  let aps := activeProviders st.providers filt
  match resolveLoop k aps with
  | (some v, tr) =>
      (some v,
       { st with keys := dictInsert st.keys k v, environ := dictInsert st.environ k v },
       tr)
  | (none, tr) => (none, st, tr)

/-- Embeds `KeyManager.get_key`.  Returns the result, the new state, and
the trace of provider names whose `get_key` was invoked during the call. -/
def get_key (st : ManagerState) (k : String) (filt : Option (List String)) :
    Option String × ManagerState × List String :=
  let st₁ := ensureInit st
  match dictGet st₁.keys k with
  | some v => if v ≠ "" then (some v, st₁, []) else resolveAndStore st₁ k filt
  | none => resolveAndStore st₁ k filt

/-- `hasattr(provider, "supports_write") and provider.supports_write()`. -/
def supportsWriteB (p : Provider) : Bool :=
  match p.supportsWrite with
  | some b => b
  | none => false

/-- `not hasattr(provider, "validate_key") or provider.validate_key(k, v)`:
a missing `validate_key` attribute counts as validation passing. -/
def validateB (p : Provider) (k v : String) : Bool :=
  match p.validateKey with
  | some f => f k v
  | none => true

/-- Eligibility of a provider for a persisting write: write-capable and
validation-passing. -/
def eligible (p : Provider) (k v : String) : Bool :=
  supportsWriteB p && validateB p k v

/-- The persistence loop of `KeyManager.set_key`: skip non-writable
providers, skip validation failures, attempt `write_key` catching
exceptions; `success` accumulates whether any write returned true. -/
def persistLoop (k v : String) : List Provider → Bool → Bool
  | [], success => success
  | p :: rest, success =>
    if supportsWriteB p = false then persistLoop k v rest success
    else if validateB p k v = false then persistLoop k v rest success
    else
      match p.writeKey k v with
      | Except.ok true => persistLoop k v rest true
      | Except.ok false => persistLoop k v rest success
      | Except.error _ => persistLoop k v rest success

/-- Embeds `KeyManager.set_key`: always cache the value; when `persist` is
requested, initialize, filter, and run the persistence loop. -/
def set_key (st : ManagerState) (k v : String) (persist : Bool)
    (filt : Option (List String)) : Bool × ManagerState :=
  let st₁ := { st with keys := dictInsert st.keys k v }
  if persist = false then (true, st₁)
  else
    let st₂ := ensureInit st₁
    let aps := activeProviders st₂.providers filt
    (persistLoop k v aps false, st₂)

/-- Flip the `enabled` flag of the first registry entry whose display name
matches; `none` when no entry matches. -/
def setEnabledFirst : List RegEntry → String → Bool → Option (List RegEntry)
  | [], _, _ => none
  | e :: rest, n, b =>
    if e.name = n then some ({ e with enabled := b } :: rest)
    else
      match setEnabledFirst rest n b with
      | some rest₁ => some (e :: rest₁)
      | none => none

/-- Embeds `KeyManager.enable_provider`: enable the matching descriptor and
force re-initialization of the live provider list. -/
def enable_provider (st : ManagerState) (n : String) : Bool × ManagerState :=
  match setEnabledFirst st.registry n true with
  | some reg => (true, ensureInit { st with registry := reg, initialized := false })
  | none => (false, st)

/-- Embeds `KeyManager.disable_provider`: disable the matching descriptor
and force re-initialization of the live provider list. -/
def disable_provider (st : ManagerState) (n : String) : Bool × ManagerState :=
  match setEnabledFirst st.registry n false with
  | some reg => (true, ensureInit { st with registry := reg, initialized := false })
  | none => (false, st)

/-! ### Concrete providers and states used to evaluate the theorems -/

/-- A manager state with the given registry and live providers, an empty
cache, an empty mirrored environment, and initialization already done. -/
def mkState (reg : List RegEntry) (ps : List Provider) : ManagerState :=
  { registry := reg, keys := [], providers := ps, initialized := true, environ := [] }

/-- A provider that always returns the value `"V1"` and writes successfully. -/
def pHit : Provider :=
  { name := "phit", getKey := fun _ => Except.ok (some "V1"),
    supportsWrite := some true, validateKey := none,
    writeKey := fun _ _ => Except.ok true }

/-- A provider that always returns the empty string. -/
def pEmpty : Provider :=
  { name := "pempty", getKey := fun _ => Except.ok (some ""),
    supportsWrite := none, validateKey := none,
    writeKey := fun _ _ => Except.ok false }

/-- A provider whose `get_key` and `write_key` always raise. -/
def pRaise : Provider :=
  { name := "praise", getKey := fun _ => Except.error (),
    supportsWrite := none, validateKey := none,
    writeKey := fun _ _ => Except.error () }

/-- A provider that always returns `None`. -/
def pOkNone : Provider :=
  { name := "pnone", getKey := fun _ => Except.ok none,
    supportsWrite := none, validateKey := none,
    writeKey := fun _ _ => Except.ok false }

/-- A provider without a `supports_write` attribute (never persisted to). -/
def pNoWrite : Provider :=
  { name := "pnowrite", getKey := fun _ => Except.ok none,
    supportsWrite := none, validateKey := none,
    writeKey := fun _ _ => Except.ok true }

/-- A registered descriptor whose factory yields `pOkNone`. -/
def regEnv : RegEntry :=
  { clsName := "EnvKeyProvider", enabled := true, priority := 10,
    name := "env", factory := some pOkNone }

/-! ### Basic lemmas about the dictionary and initialization helpers -/

theorem dictGet_dictInsert_self (d : List (String × String)) (k v : String) :
    dictGet (dictInsert d k v) k = some v := by
  induction d with
  | nil => simp [dictGet, dictInsert]
  | cons x rest ih =>
    obtain ⟨k₁, v₁⟩ := x
    by_cases h : k₁ = k
    · simp [dictGet, dictInsert, h]
    · simp [dictGet, dictInsert, h, ih]

theorem ensureInit_keys (st : ManagerState) : (ensureInit st).keys = st.keys := by
  unfold ensureInit; split <;> rfl

theorem ensureInit_environ (st : ManagerState) : (ensureInit st).environ = st.environ := by
  unfold ensureInit; split <;> rfl

theorem ensureInit_registry (st : ManagerState) : (ensureInit st).registry = st.registry := by
  unfold ensureInit; split <;> rfl

theorem ensureInit_initialized (st : ManagerState) : (ensureInit st).initialized = true := by
  unfold ensureInit; split <;> simp_all

theorem ensureInit_of_initialized (st : ManagerState) (h : st.initialized = true) :
    ensureInit st = st := by
  unfold ensureInit; simp [h]

theorem ensureInit_idem (st : ManagerState) : ensureInit (ensureInit st) = ensureInit st :=
  ensureInit_of_initialized _ (ensureInit_initialized st)

theorem truthyOf_ne_empty {r : Except Unit (Option String)} {v : String}
    (h : truthyOf r = some v) : v ≠ "" := by
  unfold truthyOf at h
  rcases r with e | o
  · exact absurd h (by simp)
  · rcases o with _ | s
    · exact absurd h (by simp)
    · by_cases hs : s = ""
      · simp [hs] at h
      · simp only [if_neg hs, Option.some.injEq] at h
        subst h; exact hs

/-! ### Characterization of the `get_key` provider loop -/

theorem resolveLoop_fst_some_iff (k : String) (ps : List Provider) (v : String) :
    (resolveLoop k ps).1 = some v ↔
      ∃ l₁ p l₂, ps = l₁ ++ p :: l₂ ∧ (∀ q ∈ l₁, truthyOf (q.getKey k) = none) ∧
        truthyOf (p.getKey k) = some v := by
  induction ps with
  | nil =>
    simp only [resolveLoop]
    constructor
    · intro h; exact absurd h (by simp)
    · rintro ⟨l₁, p, l₂, heq, -, -⟩
      exact absurd heq (by simp)
  | cons p rest ih =>
    simp only [resolveLoop]
    cases h : truthyOf (p.getKey k) with
    | some w =>
      simp only []
      constructor
      · intro hv
        refine ⟨[], p, rest, rfl, by simp, ?_⟩
        rw [h]; exact hv
      · rintro ⟨l₁, q, l₂, heq, hmiss, hhit⟩
        cases l₁ with
        | nil =>
          simp only [List.nil_append, List.cons.injEq] at heq
          obtain ⟨rfl, rfl⟩ := heq
          rw [h] at hhit; exact hhit
        | cons a as =>
          simp only [List.cons_append, List.cons.injEq] at heq
          obtain ⟨rfl, -⟩ := heq
          have hp := hmiss p (by simp)
          rw [h] at hp; exact absurd hp (by simp)
    | none =>
      simp only []
      rw [ih]
      constructor
      · rintro ⟨l₁, q, l₂, rfl, hmiss, hhit⟩
        refine ⟨p :: l₁, q, l₂, rfl, ?_, hhit⟩
        intro x hx
        rcases List.mem_cons.mp hx with rfl | hx₁
        · exact h
        · exact hmiss x hx₁
      · rintro ⟨l₁, q, l₂, heq, hmiss, hhit⟩
        cases l₁ with
        | nil =>
          simp only [List.nil_append, List.cons.injEq] at heq
          obtain ⟨rfl, rfl⟩ := heq
          rw [h] at hhit; exact absurd hhit (by simp)
        | cons a as =>
          simp only [List.cons_append, List.cons.injEq] at heq
          obtain ⟨rfl, rfl⟩ := heq
          exact ⟨as, q, l₂, rfl, fun x hx => hmiss x (by simp [hx]), hhit⟩

theorem resolveLoop_fst_none_iff (k : String) (ps : List Provider) :
    (resolveLoop k ps).1 = none ↔ ∀ p ∈ ps, truthyOf (p.getKey k) = none := by
  induction ps with
  | nil => simp [resolveLoop]
  | cons p rest ih =>
    simp only [resolveLoop]
    cases h : truthyOf (p.getKey k) with
    | some w =>
      simp only []
      constructor
      · intro hc; exact absurd hc (by simp)
      · intro hall
        have := hall p (by simp)
        rw [h] at this; exact absurd this (by simp)
    | none =>
      simp only []
      rw [ih]
      constructor
      · intro hall x hx
        rcases List.mem_cons.mp hx with rfl | hx₁
        · exact h
        · exact hall x hx₁
      · intro hall x hx
        exact hall x (by simp [hx])

theorem resolveLoop_trace_of_hit (k v : String) (l₁ l₂ : List Provider) (p : Provider)
    (hmiss : ∀ q ∈ l₁, truthyOf (q.getKey k) = none)
    (hhit : truthyOf (p.getKey k) = some v) :
    resolveLoop k (l₁ ++ p :: l₂) = (some v, l₁.map Provider.name ++ [p.name]) := by
  induction l₁ with
  | nil =>
    simp only [List.nil_append, resolveLoop, hhit, List.map_nil]
  | cons a as ih =>
    have ha : truthyOf (a.getKey k) = none := hmiss a (by simp)
    have ih₁ := ih (fun q hq => hmiss q (by simp [hq]))
    simp only [List.cons_append, resolveLoop, ha, List.append_eq, ih₁, List.map_cons]

/-! ### Characterization of the `set_key` persistence loop -/

theorem persistLoop_eq_true_iff (k v : String) (ps : List Provider) (acc : Bool) :
    persistLoop k v ps acc = true ↔
      acc = true ∨ ∃ p ∈ ps, eligible p k v = true ∧ p.writeKey k v = Except.ok true := by
  induction ps generalizing acc with
  | nil => simp [persistLoop]
  | cons p rest ih =>
    simp only [persistLoop]
    by_cases hw : supportsWriteB p = false
    · rw [if_pos hw, ih]
      constructor
      · rintro (h | ⟨q, hq, he, hwr⟩)
        · exact Or.inl h
        · exact Or.inr ⟨q, by simp [hq], he, hwr⟩
      · rintro (h | ⟨q, hq, he, hwr⟩)
        · exact Or.inl h
        · rcases List.mem_cons.mp hq with rfl | hq₁
          · exfalso
            have : eligible q k v = false := by
              simp [eligible, hw]
            rw [this] at he; exact absurd he (by simp)
          · exact Or.inr ⟨q, hq₁, he, hwr⟩
    · rw [if_neg hw]
      by_cases hv : validateB p k v = false
      · rw [if_pos hv, ih]
        constructor
        · rintro (h | ⟨q, hq, he, hwr⟩)
          · exact Or.inl h
          · exact Or.inr ⟨q, by simp [hq], he, hwr⟩
        · rintro (h | ⟨q, hq, he, hwr⟩)
          · exact Or.inl h
          · rcases List.mem_cons.mp hq with rfl | hq₁
            · exfalso
              have : eligible q k v = false := by
                simp [eligible, hv]
              rw [this] at he; exact absurd he (by simp)
            · exact Or.inr ⟨q, hq₁, he, hwr⟩
      · rw [if_neg hv]
        have helig : eligible p k v = true := by
          simp only [eligible, Bool.and_eq_true]
          exact ⟨by revert hw; cases supportsWriteB p <;> simp,
                 by revert hv; cases validateB p k v <;> simp⟩
        cases hwr : p.writeKey k v with
        | ok b =>
          cases b with
          | true =>
            simp only [ih]
            constructor
            · intro _; exact Or.inr ⟨p, by simp, helig, hwr⟩
            · intro _; exact Or.inl trivial
          | false =>
            simp only [ih]
            constructor
            · rintro (h | ⟨q, hq, he, hwq⟩)
              · exact Or.inl h
              · exact Or.inr ⟨q, by simp [hq], he, hwq⟩
            · rintro (h | ⟨q, hq, he, hwq⟩)
              · exact Or.inl h
              · rcases List.mem_cons.mp hq with rfl | hq₁
                · rw [hwr] at hwq
                  exact absurd hwq (by simp)
                · exact Or.inr ⟨q, hq₁, he, hwq⟩
        | error e =>
          simp only [ih]
          constructor
          · rintro (h | ⟨q, hq, he, hwq⟩)
            · exact Or.inl h
            · exact Or.inr ⟨q, by simp [hq], he, hwq⟩
          · rintro (h | ⟨q, hq, he, hwq⟩)
            · exact Or.inl h
            · rcases List.mem_cons.mp hq with rfl | hq₁
              · rw [hwr] at hwq
                exact absurd hwq (by simp)
              · exact Or.inr ⟨q, hq₁, he, hwq⟩

/-! ### The registry sort: permutation, sortedness, stability -/

theorem insertByPriority_perm (e : RegEntry) (l : List RegEntry) :
    List.Perm (insertByPriority e l) (e :: l) := by
  induction l with
  | nil => simp [insertByPriority]
  | cons x xs ih =>
    simp only [insertByPriority]
    by_cases h : x.priority < e.priority
    · rw [if_pos h]
      exact (ih.cons x).trans (List.Perm.swap e x xs)
    · rw [if_neg h]

theorem sortByPriority_perm (l : List RegEntry) :
    List.Perm (sortByPriority l) l := by
  induction l with
  | nil => simp [sortByPriority]
  | cons x xs ih =>
    have : sortByPriority (x :: xs) = insertByPriority x (sortByPriority xs) := rfl
    rw [this]
    exact (insertByPriority_perm x (sortByPriority xs)).trans (ih.cons x)

theorem mem_insertByPriority {y e : RegEntry} {l : List RegEntry}
    (h : y ∈ insertByPriority e l) : y = e ∨ y ∈ l := by
  have := (insertByPriority_perm e l).mem_iff.mp h
  simpa using this

theorem pairwise_insertByPriority (e : RegEntry) (l : List RegEntry)
    (h : List.Pairwise (fun a b => a.priority ≤ b.priority) l) :
    List.Pairwise (fun a b => a.priority ≤ b.priority) (insertByPriority e l) := by
  induction l with
  | nil => simp [insertByPriority]
  | cons x xs ih =>
    rw [List.pairwise_cons] at h
    obtain ⟨hx, hxs⟩ := h
    simp only [insertByPriority]
    by_cases hlt : x.priority < e.priority
    · rw [if_pos hlt]
      rw [List.pairwise_cons]
      refine ⟨?_, ih hxs⟩
      intro b hb
      rcases mem_insertByPriority hb with rfl | hb₁
      · exact le_of_lt hlt
      · exact hx b hb₁
    · rw [if_neg hlt]
      have hex : e.priority ≤ x.priority := le_of_not_lt hlt
      rw [List.pairwise_cons]
      refine ⟨?_, ?_⟩
      · intro b hb
        rcases List.mem_cons.mp hb with rfl | hb₁
        · exact hex
        · exact le_trans hex (hx b hb₁)
      · rw [List.pairwise_cons]
        exact ⟨hx, hxs⟩

theorem sortByPriority_pairwise (l : List RegEntry) :
    List.Pairwise (fun a b => a.priority ≤ b.priority) (sortByPriority l) := by
  induction l with
  | nil => simp [sortByPriority]
  | cons x xs ih =>
    have : sortByPriority (x :: xs) = insertByPriority x (sortByPriority xs) := rfl
    rw [this]
    exact pairwise_insertByPriority x (sortByPriority xs) ih

theorem filter_insertByPriority (e : RegEntry) (l : List RegEntry) (p : Int) :
    (insertByPriority e l).filter (fun x => x.priority == p) =
      if e.priority == p then e :: l.filter (fun x => x.priority == p)
      else l.filter (fun x => x.priority == p) := by
  induction l with
  | nil =>
    by_cases h : e.priority = p
    · have hb : (e.priority == p) = true := by simp [h]
      simp [insertByPriority, List.filter_cons, hb]
    · have hb : (e.priority == p) = false := by simp [h]
      simp [insertByPriority, List.filter_cons, hb]
  | cons x xs ih =>
    simp only [insertByPriority]
    by_cases hlt : x.priority < e.priority
    · rw [if_pos hlt]
      by_cases hep : e.priority = p
      · have hxp : ¬ (x.priority = p) := by omega
        have hbe : (e.priority == p) = true := by simp [hep]
        have hbx : (x.priority == p) = false := by simp [hxp]
        simp [List.filter_cons, hbx, hbe, ih]
      · have hbe : (e.priority == p) = false := by simp [hep]
        simp [List.filter_cons, hbe, ih]
    · rw [if_neg hlt]
      by_cases hep : e.priority = p
      · have hbe : (e.priority == p) = true := by simp [hep]
        simp [List.filter_cons, hbe]
      · have hbe : (e.priority == p) = false := by simp [hep]
        simp [List.filter_cons, hbe]

theorem sortByPriority_filter (l : List RegEntry) (p : Int) :
    (sortByPriority l).filter (fun x => x.priority == p) =
      l.filter (fun x => x.priority == p) := by
  induction l with
  | nil => simp [sortByPriority]
  | cons x xs ih =>
    have hs : sortByPriority (x :: xs) = insertByPriority x (sortByPriority xs) := rfl
    rw [hs, filter_insertByPriority]
    by_cases hxp : x.priority = p
    · have hb : (x.priority == p) = true := by simp [hxp]
      simp [List.filter_cons, hb, ih]
    · have hb : (x.priority == p) = false := by simp [hxp]
      simp [List.filter_cons, hb, ih]

/-! ### Structural lemmas about `get_key` -/

theorem resolveLoop_all_none (k : String) (ps : List Provider)
    (h : ∀ p ∈ ps, truthyOf (p.getKey k) = none) :
    resolveLoop k ps = (none, ps.map Provider.name) := by
  induction ps with
  | nil => rfl
  | cons p rest ih =>
    have hp := h p (by simp)
    simp only [resolveLoop, hp, List.map_cons]
    rw [ih (fun q hq => h q (by simp [hq]))]

theorem resolveLoop_fst_ne_empty {k : String} {ps : List Provider} {v : String}
    (h : (resolveLoop k ps).1 = some v) : v ≠ "" := by
  obtain ⟨l₁, p, l₂, -, -, hhit⟩ := (resolveLoop_fst_some_iff k ps v).mp h
  exact truthyOf_ne_empty hhit

theorem resolveAndStore_initialized (st : ManagerState) (k : String)
    (filt : Option (List String)) :
    (resolveAndStore st k filt).2.1.initialized = st.initialized := by
  simp only [resolveAndStore]
  rcases hr : resolveLoop k (activeProviders st.providers filt) with ⟨r, tr⟩
  cases r <;> simp [hr]

theorem resolveAndStore_fst_none_state (st : ManagerState) (k : String)
    (filt : Option (List String)) (h : (resolveAndStore st k filt).1 = none) :
    (resolveAndStore st k filt).2.1 = st := by
  simp only [resolveAndStore] at h ⊢
  rcases hr : resolveLoop k (activeProviders st.providers filt) with ⟨r, tr⟩
  cases r with
  | none => simp [hr]
  | some v => rw [hr] at h; simp at h

theorem resolveAndStore_fst_some (st : ManagerState) (k : String)
    (filt : Option (List String)) (v : String)
    (h : (resolveAndStore st k filt).1 = some v) :
    dictGet (resolveAndStore st k filt).2.1.keys k = some v ∧ v ≠ "" := by
  simp only [resolveAndStore] at h ⊢
  rcases hr : resolveLoop k (activeProviders st.providers filt) with ⟨r, tr⟩
  cases r with
  | none => rw [hr] at h; simp at h
  | some u =>
    rw [hr] at h
    simp only [Option.some.injEq] at h
    subst h
    constructor
    · simp [hr, dictGet_dictInsert_self]
    · exact @resolveLoop_fst_ne_empty k (activeProviders st.providers filt) u (by rw [hr])

theorem get_key_split (st : ManagerState) (k : String) (filt : Option (List String)) :
    (∃ w, dictGet st.keys k = some w ∧ w ≠ "" ∧
       get_key st k filt = (some w, ensureInit st, [])) ∨
    ((∀ w, dictGet st.keys k = some w → w = "") ∧
       get_key st k filt = resolveAndStore (ensureInit st) k filt) := by
  have hk : (ensureInit st).keys = st.keys := ensureInit_keys st
  simp only [get_key]
  rw [hk]
  cases hdg : dictGet st.keys k with
  | none =>
    right
    refine ⟨?_, rfl⟩
    intro u hu
    simp at hu
  | some w =>
    by_cases hw : w = ""
    · subst hw
      right
      refine ⟨?_, by simp⟩
      intro u hu
      exact (Option.some.inj hu).symm
    · left
      exact ⟨w, rfl, hw, by simp [hw]⟩

theorem get_key_state_initialized (st : ManagerState) (k : String)
    (filt : Option (List String)) :
    (get_key st k filt).2.1.initialized = true := by
  rcases get_key_split st k filt with ⟨w, -, -, heq⟩ | ⟨-, heq⟩
  · rw [heq]; exact ensureInit_initialized st
  · rw [heq, resolveAndStore_initialized]; exact ensureInit_initialized st

theorem get_key_cache_of_some (st : ManagerState) (k : String)
    (filt : Option (List String)) (v : String) (h : (get_key st k filt).1 = some v) :
    dictGet (get_key st k filt).2.1.keys k = some v ∧ v ≠ "" := by
  rcases get_key_split st k filt with ⟨w, hdg, hw, heq⟩ | ⟨-, heq⟩
  · rw [heq] at h ⊢
    simp only [Option.some.injEq] at h
    subst h
    exact ⟨by rw [ensureInit_keys]; exact hdg, hw⟩
  · rw [heq] at h ⊢
    exact resolveAndStore_fst_some _ k filt v h

theorem get_key_state_of_none (st : ManagerState) (k : String)
    (filt : Option (List String)) (h : (get_key st k filt).1 = none) :
    (get_key st k filt).2.1 = ensureInit st := by
  rcases get_key_split st k filt with ⟨w, -, -, heq⟩ | ⟨-, heq⟩
  · rw [heq] at h; simp at h
  · rw [heq] at h ⊢
    exact resolveAndStore_fst_none_state _ k filt h

theorem get_key_ensureInit (st : ManagerState) (k : String) (filt : Option (List String)) :
    get_key (ensureInit st) k filt = get_key st k filt := by
  simp only [get_key, ensureInit_idem]

/-! ### Remaining helper lemmas -/

theorem resolveLoop_fst_skip_error (k : String) (l₁ l₂ : List Provider) (p : Provider)
    (herr : p.getKey k = Except.error ()) :
    (resolveLoop k (l₁ ++ p :: l₂)).1 = (resolveLoop k (l₁ ++ l₂)).1 := by
  induction l₁ with
  | nil =>
    have hp : truthyOf (p.getKey k) = none := by rw [herr]; rfl
    simp only [List.nil_append, resolveLoop, hp]
  | cons a as ih =>
    simp only [List.cons_append, resolveLoop]
    cases h : truthyOf (a.getKey k) with
    | some w => simp [h]
    | none => simp [h, ih]

theorem activeProviders_empty_filter (ps : List Provider) :
    activeProviders ps (some []) = activeProviders ps none := by
  simp [activeProviders]

theorem mem_initProviders {q : Provider} {reg : List RegEntry}
    (h : q ∈ initProviders reg) :
    ∃ e ∈ reg, e.enabled = true ∧ e.factory = some q := by
  unfold initProviders get_registered_providers at h
  obtain ⟨e, he, hfe⟩ := List.mem_filterMap.mp h
  refine ⟨e, (sortByPriority_perm reg).mem_iff.mp he, ?_, ?_⟩
  · by_cases hen : e.enabled
    · exact hen
    · rw [if_neg hen] at hfe; exact absurd hfe (by simp)
  · by_cases hen : e.enabled
    · rw [if_pos hen] at hfe; exact hfe
    · rw [if_neg hen] at hfe; exact absurd hfe (by simp)

theorem dictGetReg_dictInsertReg_self (d : List RegEntry) (key : String) (e : RegEntry)
    (he : e.clsName = key) :
    dictGetReg (dictInsertReg d key e) key = some e := by
  induction d with
  | nil => simp [dictInsertReg, dictGetReg, he]
  | cons x rest ih =>
    by_cases h : x.clsName = key
    · simp [dictInsertReg, dictGetReg, h, he]
    · simp [dictInsertReg, dictGetReg, h, ih]

/-! ### Claim theorems -/

/-- C5: `enable_provider` and `disable_provider` leave the key cache
unchanged: every cached key-value pair (including values resolved through
the provider being disabled) survives either call with the same value. -/
theorem c5_enable_disable_preserve_cache (st : ManagerState) (n : String) :
    (enable_provider st n).2.keys = st.keys ∧
    (disable_provider st n).2.keys = st.keys := by
  constructor
  · unfold enable_provider
    cases h : setEnabledFirst st.registry n true with
    | some reg => simp [ensureInit_keys]
    | none => simp
  · unfold disable_provider
    cases h : setEnabledFirst st.registry n false with
    | some reg => simp [ensureInit_keys]
    | none => simp

/-- C6: `get_registered_providers` returns all registered descriptors (a
permutation of the registry), sorted ascending by priority, and the sort
is stable: descriptors of equal priority keep their registration
(insertion) order. -/
theorem c6_registry_sorted_stable (reg : List RegEntry) :
    List.Perm (get_registered_providers reg) reg ∧
    List.Pairwise (fun a b => a.priority ≤ b.priority) (get_registered_providers reg) ∧
    ∀ p : Int, (get_registered_providers reg).filter (fun e => e.priority == p) =
      reg.filter (fun e => e.priority == p) :=
  ⟨sortByPriority_perm reg, sortByPriority_pairwise reg,
   fun p => sortByPriority_filter reg p⟩

/-- C9: an empty provider-filter list behaves exactly like no filter at
all, for both `get_key` and `set_key`: every active provider remains a
candidate. -/
theorem c9_empty_filter_like_none (st : ManagerState) (k v : String) (persist : Bool) :
    get_key st k (some []) = get_key st k none ∧
    set_key st k v persist (some []) = set_key st k v persist none := by
  constructor
  · simp only [get_key, resolveAndStore, activeProviders_empty_filter]
  · simp only [set_key, activeProviders_empty_filter]

/-- C1: with `persist = true`, `set_key` returns true iff at least one
eligible provider among the (optionally filtered) active providers — one
that is write-capable and validation-passing — has `write_key` return
true; a validation failure or a `write_key` exception merely skips that
provider, and the loop visits every provider. -/
theorem c1_set_key_persist_success_iff (st : ManagerState) (k v : String)
    (filt : Option (List String)) (hinit : st.initialized = true) :
    (set_key st k v true filt).1 = true ↔
      ∃ p ∈ activeProviders st.providers filt,
        eligible p k v = true ∧ p.writeKey k v = Except.ok true := by
  have h₁ : ensureInit { st with keys := dictInsert st.keys k v } =
      { st with keys := dictInsert st.keys k v } :=
    ensureInit_of_initialized _ hinit
  simp only [set_key, h₁]
  rw [if_neg (by simp)]
  rw [persistLoop_eq_true_iff]
  simp

/-- Witness for C1 at a concrete state: a provider without write support
followed by a successfully writing provider. -/
theorem c1_witness :
    (set_key (mkState [] [pNoWrite, pHit]) "K" "V" true none).1 = true ↔
      ∃ p ∈ activeProviders (mkState [] [pNoWrite, pHit]).providers none,
        eligible p "K" "V" = true ∧ p.writeKey "K" "V" = Except.ok true :=
  c1_set_key_persist_success_iff (mkState [] [pNoWrite, pHit]) "K" "V" none rfl

/-- C8: after `set_key k v` (any persist flag, any filter), `get_key k`
returns `v` as a pure cache hit: the result is `some v` and no provider's
`get_key` is invoked (empty call trace), provided `v` is non-empty. -/
theorem c8_set_then_get_cache_hit (st : ManagerState) (k v : String) (persist : Bool)
    (f₁ f₂ : Option (List String)) (hv : v ≠ "") :
    (get_key (set_key st k v persist f₁).2 k f₂).1 = some v ∧
    (get_key (set_key st k v persist f₁).2 k f₂).2.2 = [] := by
  have hkeys : (set_key st k v persist f₁).2.keys = dictInsert st.keys k v := by
    unfold set_key
    by_cases hp : persist = false
    · simp [hp]
    · simp [hp, ensureInit_keys]
  have hget : dictGet (set_key st k v persist f₁).2.keys k = some v := by
    rw [hkeys]; exact dictGet_dictInsert_self _ _ _
  rcases get_key_split (set_key st k v persist f₁).2 k f₂ with
    ⟨w, hdg, hw, heq⟩ | ⟨hms, heq⟩
  · rw [hget] at hdg
    have : v = w := Option.some.inj hdg
    subst this
    rw [heq]
    exact ⟨rfl, rfl⟩
  · exact absurd (hms v hget) hv

/-- Witness for C8 at a concrete state. -/
theorem c8_witness :
    ("V" ≠ "") ∧
    ((get_key (set_key (mkState [] []) "K" "V" false none).2 "K" none).1 = some "V" ∧
     (get_key (set_key (mkState [] []) "K" "V" false none).2 "K" none).2.2 = []) :=
  ⟨by decide, c8_set_then_get_cache_hit (mkState [] []) "K" "V" false none none (by decide)⟩

/-- C2: on a cache miss (key absent or cached empty), `get_key` walks the
(optionally filtered) providers in order and returns the first truthy
value: the result is `some v` iff some provider yields `v` after a prefix
of providers that all yield nothing (exception, `None`, or `""`); on a
hit the value is written through into the cache and the environment and
no further provider is consulted (the trace stops at the hit); if every
provider yields nothing the result is absent and the state unchanged. -/
theorem c2_get_key_first_provider_hit (st : ManagerState) (k : String)
    (filt : Option (List String)) (hinit : st.initialized = true)
    (hmiss : ∀ w, dictGet st.keys k = some w → w = "") :
    (∀ v, (get_key st k filt).1 = some v ↔
      ∃ l₁ p l₂, activeProviders st.providers filt = l₁ ++ p :: l₂ ∧
        (∀ q ∈ l₁, truthyOf (q.getKey k) = none) ∧ truthyOf (p.getKey k) = some v) ∧
    (∀ v l₁ p l₂, activeProviders st.providers filt = l₁ ++ p :: l₂ →
      (∀ q ∈ l₁, truthyOf (q.getKey k) = none) → truthyOf (p.getKey k) = some v →
      get_key st k filt = (some v,
        { st with keys := dictInsert st.keys k v, environ := dictInsert st.environ k v },
        l₁.map Provider.name ++ [p.name])) ∧
    ((∀ p ∈ activeProviders st.providers filt, truthyOf (p.getKey k) = none) →
      get_key st k filt =
        (none, st, (activeProviders st.providers filt).map Provider.name)) := by
  have hE : ensureInit st = st := ensureInit_of_initialized st hinit
  have hg : get_key st k filt = resolveAndStore st k filt := by
    rcases get_key_split st k filt with ⟨w, hdg, hw, -⟩ | ⟨-, heq⟩
    · exact absurd (hmiss w hdg) hw
    · rw [heq, hE]
  refine ⟨?_, ?_, ?_⟩
  · intro v
    rw [hg]
    simp only [resolveAndStore]
    rw [← resolveLoop_fst_some_iff k (activeProviders st.providers filt) v]
    rcases hr : resolveLoop k (activeProviders st.providers filt) with ⟨r, tr⟩
    cases r <;> simp
  · intro v l₁ p l₂ hsplit hm hh
    rw [hg]
    simp only [resolveAndStore]
    rw [hsplit, resolveLoop_trace_of_hit k v l₁ l₂ p hm hh]
  · intro hall
    rw [hg]
    simp only [resolveAndStore]
    rw [resolveLoop_all_none k _ hall]

/-- Witness for C2 at a concrete state: an empty-string provider followed
by a provider holding a value. -/
theorem c2_witness :
    (∀ v, (get_key (mkState [] [pEmpty, pHit]) "K" none).1 = some v ↔
      ∃ l₁ p l₂, activeProviders (mkState [] [pEmpty, pHit]).providers none = l₁ ++ p :: l₂ ∧
        (∀ q ∈ l₁, truthyOf (q.getKey "K") = none) ∧ truthyOf (p.getKey "K") = some v) ∧
    (∀ v l₁ p l₂, activeProviders (mkState [] [pEmpty, pHit]).providers none = l₁ ++ p :: l₂ →
      (∀ q ∈ l₁, truthyOf (q.getKey "K") = none) → truthyOf (p.getKey "K") = some v →
      get_key (mkState [] [pEmpty, pHit]) "K" none = (some v,
        { mkState [] [pEmpty, pHit] with
            keys := dictInsert (mkState [] [pEmpty, pHit]).keys "K" v,
            environ := dictInsert (mkState [] [pEmpty, pHit]).environ "K" v },
        l₁.map Provider.name ++ [p.name])) ∧
    ((∀ p ∈ activeProviders (mkState [] [pEmpty, pHit]).providers none,
        truthyOf (p.getKey "K") = none) →
      get_key (mkState [] [pEmpty, pHit]) "K" none =
        (none, mkState [] [pEmpty, pHit],
         (activeProviders (mkState [] [pEmpty, pHit]).providers none).map Provider.name)) :=
  c2_get_key_first_provider_hit (mkState [] [pEmpty, pHit]) "K" none rfl
    (by intro w hw; simp [mkState, dictGet] at hw)

/-- C3 (amended): two consecutive `get_key(k)` calls with no intervening
operations return identical results, and when the first call returns a
value the second call is a pure cache hit: zero provider calls and an
unchanged state.  When the first call returns absent nothing is cached,
so the second call queries the providers again (see the counterexample to
the original claim). -/
theorem c3_amended_consecutive_get (st : ManagerState) (k : String)
    (filt : Option (List String)) :
    (get_key (get_key st k filt).2.1 k filt).1 = (get_key st k filt).1 ∧
    (∀ v, (get_key st k filt).1 = some v →
      get_key (get_key st k filt).2.1 k filt = (some v, (get_key st k filt).2.1, [])) := by
  cases h1 : (get_key st k filt).1 with
  | none =>
    have hb : (get_key st k filt).2.1 = ensureInit st := get_key_state_of_none st k filt h1
    constructor
    · rw [hb, get_key_ensureInit]
      exact h1
    · intro v hv
      exact absurd hv (by simp)
  | some v =>
    obtain ⟨hdg, hne⟩ := get_key_cache_of_some st k filt v h1
    have hinit₂ : (get_key st k filt).2.1.initialized = true :=
      get_key_state_initialized st k filt
    have hsecond : get_key (get_key st k filt).2.1 k filt =
        (some v, (get_key st k filt).2.1, []) := by
      rcases get_key_split (get_key st k filt).2.1 k filt with
        ⟨w, hdg₂, hw₂, heq⟩ | ⟨hms, -⟩
      · have hvw : v = w := Option.some.inj (hdg.symm.trans hdg₂)
        subst hvw
        rw [heq, ensureInit_of_initialized _ hinit₂]
      · exact absurd (hms v hdg) hne
    constructor
    · rw [hsecond]
    · intro w hw
      have hvw : v = w := Option.some.inj hw
      subst hvw
      exact hsecond

/-- Counterexample to C3 as stated: with a single provider that returns
`None`, the first `get_key` call invokes the provider (trace `["pnone"]`)
and caches nothing, and the second call invokes it again — the provider
is invoked twice in total and the second call is not a zero-provider-call
cache hit. -/
theorem c3_counterexample :
    (get_key (mkState [] [pOkNone]) "K" none).2.2 = ["pnone"] ∧
    (get_key (get_key (mkState [] [pOkNone]) "K" none).2.1 "K" none).2.2 = ["pnone"] := by
  constructor <;> rfl

theorem resolveAndStore_skip_error (st₁ st₂ : ManagerState) (k : String)
    (l₁ l₂ : List Provider) (p : Provider) (herr : p.getKey k = Except.error ())
    (hp₁ : st₁.providers = l₁ ++ p :: l₂) (hp₂ : st₂.providers = l₁ ++ l₂)
    (hk : st₁.keys = st₂.keys) (he : st₁.environ = st₂.environ) :
    ((resolveAndStore st₁ k none).1 = (resolveAndStore st₂ k none).1) ∧
    ((resolveAndStore st₁ k none).2.1.keys = (resolveAndStore st₂ k none).2.1.keys) ∧
    ((resolveAndStore st₁ k none).2.1.environ = (resolveAndStore st₂ k none).2.1.environ) := by
  simp only [resolveAndStore, activeProviders]
  rw [hp₁, hp₂]
  have hfst := resolveLoop_fst_skip_error k l₁ l₂ p herr
  rcases h₁ : resolveLoop k (l₁ ++ p :: l₂) with ⟨r₁, t₁⟩
  rcases h₂ : resolveLoop k (l₁ ++ l₂) with ⟨r₂, t₂⟩
  rw [h₁, h₂] at hfst
  simp only at hfst
  subst hfst
  cases r₁ with
  | none => simp [hk, he]
  | some w => simp [hk, he]

/-- C4: an exception raised by a provider's `get_key` never propagates
past the Manager (the embedded `get_key` is total): the raising provider
is treated as having no value and resolution continues with the next
provider, so the result, the cache and the mirrored environment are the
same as if the raising provider were not in the list. -/
theorem c4_provider_exception_skipped (st : ManagerState) (k : String)
    (l₁ l₂ : List Provider) (p : Provider)
    (hinit : st.initialized = true) (herr : p.getKey k = Except.error ()) :
    ((get_key { st with providers := l₁ ++ p :: l₂ } k none).1 =
      (get_key { st with providers := l₁ ++ l₂ } k none).1) ∧
    ((get_key { st with providers := l₁ ++ p :: l₂ } k none).2.1.keys =
      (get_key { st with providers := l₁ ++ l₂ } k none).2.1.keys) ∧
    ((get_key { st with providers := l₁ ++ p :: l₂ } k none).2.1.environ =
      (get_key { st with providers := l₁ ++ l₂ } k none).2.1.environ) := by
  have hEA : ensureInit { st with providers := l₁ ++ p :: l₂ } =
      { st with providers := l₁ ++ p :: l₂ } :=
    ensureInit_of_initialized _ hinit
  have hEB : ensureInit { st with providers := l₁ ++ l₂ } =
      { st with providers := l₁ ++ l₂ } :=
    ensureInit_of_initialized _ hinit
  rcases get_key_split { st with providers := l₁ ++ p :: l₂ } k none with
    ⟨w, hdgA, hwA, heqA⟩ | ⟨hmsA, heqA⟩
  · rcases get_key_split { st with providers := l₁ ++ l₂ } k none with
      ⟨w₂, hdgB, hwB, heqB⟩ | ⟨hmsB, heqB⟩
    · have hww : w = w₂ := Option.some.inj (hdgA.symm.trans hdgB)
      subst hww
      rw [heqA, heqB, hEA, hEB]
      exact ⟨rfl, rfl, rfl⟩
    · exact absurd (hmsB w hdgA) hwA
  · rcases get_key_split { st with providers := l₁ ++ l₂ } k none with
      ⟨w₂, hdgB, hwB, heqB⟩ | ⟨hmsB, heqB⟩
    · exact absurd (hmsA w₂ hdgB) hwB
    · rw [heqA, heqB, hEA, hEB]
      exact resolveAndStore_skip_error _ _ k l₁ l₂ p herr rfl rfl rfl rfl

/-- Witness for C4 at a concrete state: a raising provider between an
empty-string provider and a value provider. -/
theorem c4_witness :
    pRaise.getKey "K" = Except.error () ∧
    (((get_key { mkState [] [] with providers := [pEmpty] ++ pRaise :: [pHit] } "K" none).1 =
       (get_key { mkState [] [] with providers := [pEmpty] ++ [pHit] } "K" none).1) ∧
     ((get_key { mkState [] [] with providers := [pEmpty] ++ pRaise :: [pHit] } "K" none).2.1.keys =
       (get_key { mkState [] [] with providers := [pEmpty] ++ [pHit] } "K" none).2.1.keys) ∧
     ((get_key { mkState [] [] with providers := [pEmpty] ++ pRaise :: [pHit] } "K" none).2.1.environ =
       (get_key { mkState [] [] with providers := [pEmpty] ++ [pHit] } "K" none).2.1.environ)) :=
  ⟨rfl, c4_provider_exception_skipped (mkState [] []) "K" [pEmpty] [pHit] pRaise rfl rfl⟩

/-- Counterexample to C7 as stated: registering with the explicit name
override `"MyKeyProvider"` does not store that override exactly as given —
the decorator also strips the `KeyProvider` suffix from an override and
lowercases the rest, storing `"my"`. -/
theorem c7_counterexample :
    ∃ e, dictGetReg (registerClass [] "SomeCls" true 100 (some "MyKeyProvider") none)
        "SomeCls" = some e ∧ e.name ≠ "MyKeyProvider" := by
  refine ⟨_, rfl, ?_⟩
  decide

/-- C7 (amended): the registered display name starts from the explicit
non-empty override when one is supplied, else from the class name; in
either case, if that string ends with `KeyProvider` the suffix is
stripped and the remainder lowercased, and otherwise the string is used
exactly as given. -/
theorem c7_amended_display_name (reg : List RegEntry) (cls : String) (en : Bool)
    (pr : Int) (n : String) (f : Option Provider) (hn : n ≠ "") :
    (∃ e, dictGetReg (registerClass reg cls en pr (some n) f) cls = some e ∧
       e.name = (if pyEndsWith n "KeyProvider" then pyLower (pyDropRight n 11) else n)) ∧
    (∃ e, dictGetReg (registerClass reg cls en pr none f) cls = some e ∧
       e.name = (if pyEndsWith cls "KeyProvider"
                 then pyLower (pyDropRight cls 11) else cls)) := by
  constructor
  · refine ⟨_, dictGetReg_dictInsertReg_self reg cls _ rfl, ?_⟩
    simp [deriveProviderName, hn]
  · refine ⟨_, dictGetReg_dictInsertReg_self reg cls _ rfl, ?_⟩
    simp [deriveProviderName]

/-- Witness for the amended C7 at concrete inputs. -/
theorem c7_witness :
    (∃ e, dictGetReg (registerClass [] "FooKeyProvider" true 100 (some "Custom") none)
        "FooKeyProvider" = some e ∧
       e.name = (if pyEndsWith "Custom" "KeyProvider"
                 then pyLower (pyDropRight "Custom" 11) else "Custom")) ∧
    (∃ e, dictGetReg (registerClass [] "FooKeyProvider" true 100 none none)
        "FooKeyProvider" = some e ∧
       e.name = (if pyEndsWith "FooKeyProvider" "KeyProvider"
                 then pyLower (pyDropRight "FooKeyProvider" 11) else "FooKeyProvider")) :=
  c7_amended_display_name [] "FooKeyProvider" true 100 "Custom" none (by decide)

theorem ensureInit_providers_of_reset (st : ManagerState) (h : st.initialized = false) :
    (ensureInit st).providers = initProviders st.registry := by
  unfold ensureInit
  rw [h]
  simp

/-- C10: an `enable_provider` or `disable_provider` call that returns true
rebuilds the live provider list solely from the registry's enabled
descriptors: the new list is exactly `initProviders` of the new registry,
and every live instance arises from an enabled descriptor's factory — so
an instance that was added directly via `register_provider` (and is not
producible from the registry) no longer participates in any lookup or
write. -/
theorem c10_enable_disable_rebuild (st : ManagerState) (q : Provider) (n : String)
    (hE : (enable_provider (register_provider st q) n).1 = true)
    (hD : (disable_provider (register_provider st q) n).1 = true) :
    ((enable_provider (register_provider st q) n).2.providers =
       initProviders (enable_provider (register_provider st q) n).2.registry ∧
     ∀ r ∈ (enable_provider (register_provider st q) n).2.providers,
       ∃ e ∈ (enable_provider (register_provider st q) n).2.registry,
         e.enabled = true ∧ e.factory = some r) ∧
    ((disable_provider (register_provider st q) n).2.providers =
       initProviders (disable_provider (register_provider st q) n).2.registry ∧
     ∀ r ∈ (disable_provider (register_provider st q) n).2.providers,
       ∃ e ∈ (disable_provider (register_provider st q) n).2.registry,
         e.enabled = true ∧ e.factory = some r) := by
  constructor
  · unfold enable_provider at hE ⊢
    cases hse : setEnabledFirst (register_provider st q).registry n true with
    | none =>
      rw [hse] at hE
      simp at hE
    | some reg =>
      simp only [hse]
      constructor
      · rw [ensureInit_providers_of_reset _ rfl, ensureInit_registry]
      · intro r hr
        rw [ensureInit_providers_of_reset _ rfl] at hr
        rw [ensureInit_registry]
        exact mem_initProviders hr
  · unfold disable_provider at hD ⊢
    cases hsd : setEnabledFirst (register_provider st q).registry n false with
    | none =>
      rw [hsd] at hD
      simp at hD
    | some reg =>
      simp only [hsd]
      constructor
      · rw [ensureInit_providers_of_reset _ rfl, ensureInit_registry]
      · intro r hr
        rw [ensureInit_providers_of_reset _ rfl] at hr
        rw [ensureInit_registry]
        exact mem_initProviders hr

/-- Witness for C10 at a concrete state: a directly registered instance
`pHit` plus a registry descriptor named `"env"`. -/
theorem c10_witness :
    ((enable_provider (register_provider (mkState [regEnv] []) pHit) "env").2.providers =
       initProviders (enable_provider (register_provider (mkState [regEnv] []) pHit) "env").2.registry ∧
     ∀ r ∈ (enable_provider (register_provider (mkState [regEnv] []) pHit) "env").2.providers,
       ∃ e ∈ (enable_provider (register_provider (mkState [regEnv] []) pHit) "env").2.registry,
         e.enabled = true ∧ e.factory = some r) ∧
    ((disable_provider (register_provider (mkState [regEnv] []) pHit) "env").2.providers =
       initProviders (disable_provider (register_provider (mkState [regEnv] []) pHit) "env").2.registry ∧
     ∀ r ∈ (disable_provider (register_provider (mkState [regEnv] []) pHit) "env").2.providers,
       ∃ e ∈ (disable_provider (register_provider (mkState [regEnv] []) pHit) "env").2.registry,
         e.enabled = true ∧ e.factory = some r) :=
  c10_enable_disable_rebuild (mkState [regEnv] []) pHit "env" rfl rfl
